import Mathlib

/-!
# Verification of the PKM metadata/index engine

Shallow embedding of the PKM pipeline (markdown metadata extraction, the
DynamoDB-backed index store, the markdown materializers, the Bedrock
response validation and the rollup handlers) together with proofs about
the specification's claims.

Conventions of the embedding:
* Python strings are Lean `String`s (compared by code point, as Python does).
* The ambient clock (`datetime.utcnow()`) is passed explicitly as a `now`
  argument wherever the source reads it.
* External collaborators (S3, the Bedrock model, the YAML parser) are
  passed as explicit function arguments; the DynamoDB table is a list of
  items threaded through each operation.
* Python exceptions that the source does not catch are modelled with
  `Except`.
-/

namespace PKM

/-! ## Python string primitives -/

/-- The ASCII whitespace characters recognised by Python's `str.strip()` and
by the regex class `\s` (we model the ASCII fragment; the claims only
exercise ASCII data). -/
def pyIsSpace (c : Char) : Bool :=
  c = ' ' || c = '\t' || c = '\n' || c = '\r' || c = '\x0b' || c = '\x0c'

/-- Python `str.strip()` on a character list. -/
def pyStripList (cs : List Char) : List Char :=
  ((cs.dropWhile pyIsSpace).reverse.dropWhile pyIsSpace).reverse

/-- Python `str.strip()`. -/
def pyStrip (s : String) : String :=
  ⟨pyStripList s.data⟩

/-- Python `str.lower()` on a character (ASCII fragment). -/
def pyLowerChar (c : Char) : Char :=
  if 'A' ≤ c ∧ c ≤ 'Z' then Char.ofNat (c.toNat + 32) else c

/-- Python `str.lower()` (ASCII fragment; the enum labels and entity names
in the claims are ASCII). -/
def pyLower (s : String) : String :=
  ⟨s.data.map pyLowerChar⟩

/-- Python `str.upper()` on a character (ASCII fragment). -/
def pyUpperChar (c : Char) : Char :=
  if 'a' ≤ c ∧ c ≤ 'z' then Char.ofNat (c.toNat - 32) else c

/-- Python `str.capitalize()`: first character upper-cased, the rest
lower-cased. -/
def pyCapitalize (s : String) : String :=
  match s.data with
  | [] => ""
  | c :: cs => ⟨pyUpperChar c :: cs.map pyLowerChar⟩

/-- Python `str.split(',')` (split on every comma, keeping empty pieces). -/
def pySplitComma (s : String) : List String :=
  (s.data.splitOn ',').map fun cs => (⟨cs⟩ : String)

/-- Does `pat` occur as a contiguous sublist of `cs`?  (Python `pat in s`.) -/
def listIsSubstr (pat : List Char) (cs : List Char) : Bool :=
  cs.tails.any fun t => pat.isPrefixOf t

/-- Python substring test `pat in s`. -/
def pyInStr (pat s : String) : Bool :=
  listIsSubstr pat.data s.data

/-- One fuel-driven pass of Python `str.replace(old, new)`: scan left to
right, replacing every non-overlapping occurrence of `old` by `new`.
The fuel is the length of the scanned list, which every step strictly
decreases, so it never runs out. -/
def pyReplaceAux (old new : List Char) : Nat → List Char → List Char
  | 0, cs => cs
  | _ + 1, [] => []
  | fuel + 1, c :: cs =>
    if old.isPrefixOf (c :: cs) ∧ old ≠ [] then
      new ++ pyReplaceAux old new fuel ((c :: cs).drop old.length)
    else
      c :: pyReplaceAux old new fuel cs

/-- Python `s.replace(old, new)` (all occurrences). -/
def pyReplace (s old new : String) : String :=
  ⟨pyReplaceAux old.data new.data s.data.length s.data⟩

/-- Python slicing `s[:n]`. -/
def pySliceTo (s : String) (n : Nat) : String :=
  ⟨s.data.take n⟩

/-- Python `str.startswith`. -/
def pyStartsWith (s pre : String) : Bool :=
  pre.data.isPrefixOf s.data

/-- Deduplicate keeping the first occurrence.  This is a canonical
enumeration of a Python `set` built by successive insertion; Python's own
`list(set(...))` order is unspecified (hash order), and no claim depends
on it. -/
def dedupKeepFirst : List String → List String
  | [] => []
  | x :: xs => x :: (dedupKeepFirst (xs.filter fun y => y ≠ x))
termination_by l => l.length
decreasing_by
  exact Nat.lt_succ_of_le (List.length_filter_le _ _)

/-- Zero-padded two-digit rendering (`f"{n:02d}"` for `n ≥ 0`). -/
def pad2 (n : Nat) : String :=
  if n < 10 then "0" ++ toString n else toString n

/-- Lexicographic strict order on character lists by code point: Python's
`<` on strings. -/
def lexLtChars : List Char → List Char → Bool
  | [], [] => false
  | [], _ :: _ => true
  | _ :: _, [] => false
  | a :: as, b :: bs =>
    if a.toNat < b.toNat then true
    else if b.toNat < a.toNat then false
    else lexLtChars as bs

/-- Python `a < b` on strings. -/
def pyStrLt (a b : String) : Bool :=
  lexLtChars a.data b.data

/-- Python `a <= b` on strings (total order: `¬ b < a`). -/
def pyStrLe (a b : String) : Bool :=
  ! pyStrLt b a

/-- The propositional form of `pyStrLe`, the comparison under Python's
`sorted`. -/
def pyLe (a b : String) : Prop :=
  pyStrLe a b = true

instance : DecidableRel pyLe :=
  fun a b => inferInstanceAs (Decidable (pyStrLe a b = true))

/-! ## Proleptic Gregorian calendar (Python `datetime.date`)

Dates are represented by their proleptic Gregorian ordinal
(`date.toordinal()`: 0001-01-01 ↦ 1), which is how `datetime` does its own
arithmetic.  Years are the `datetime` range `1..9999`. -/

/-- Gregorian leap year test. -/
def isLeap (y : Nat) : Bool :=
  y % 4 = 0 && (y % 100 ≠ 0 || y % 400 = 0)

/-- Number of days in the years `1..y-1`. -/
def daysBeforeYear (y : Nat) : Nat :=
  365 * (y - 1) + (y - 1) / 4 - (y - 1) / 100 + (y - 1) / 400

/-- Number of days of month `m` of year `y`. -/
def daysInMonth (y m : Nat) : Nat :=
  if m = 2 then (if isLeap y then 29 else 28)
  else if m = 4 ∨ m = 6 ∨ m = 9 ∨ m = 11 then 30
  else 31

/-- Number of days in year `y` strictly before month `m`. -/
def daysBeforeMonth (y m : Nat) : Nat :=
  ((List.range (m - 1)).map fun i => daysInMonth y (i + 1)).sum

/-- `date(y, m, d).toordinal()`. -/
def dateOrdinal (y m d : Nat) : Nat :=
  daysBeforeYear y + daysBeforeMonth y m + d

/-- `date.fromordinal(o).weekday()`: Monday = 0 … Sunday = 6
(ordinal 1, 0001-01-01, was a Monday). -/
def weekdayMon0 (o : Nat) : Nat :=
  (o + 6) % 7

/-- Ordinal of the Monday starting ISO week 1 of year `y`
(the week containing January 4th). -/
def isoWeek1Monday (y : Nat) : Nat :=
  let j4 := dateOrdinal y 1 4
  j4 - weekdayMon0 j4

/-- `date(y, m, d).isocalendar()`, returning `(ISO year, ISO week)`
(the third component, the ISO weekday, is discarded by all call sites). -/
def pyIsocalendarYW (y m d : Nat) : Nat × Nat :=
  let o := dateOrdinal y m d
  let w1 := isoWeek1Monday y
  if o < w1 then (y - 1, (o - isoWeek1Monday (y - 1)) / 7 + 1)
  else if isoWeek1Monday (y + 1) ≤ o then (y + 1, 1)
  else (y, (o - w1) / 7 + 1)

/-- Ordinal of `datetime.strptime(f"{y}-W{week:02d}-{pyw}", "%Y-W%W-%w")`
for `week ≥ 1` (the only case the handler reaches, since ISO weeks are
positive).  This follows CPython `_strptime._calc_julian_from_U_or_W` for
the `%W` directive: week 1 starts at the first Monday of year `y`, days
before it are week 0, and `%w` counts Sunday as 0. -/
def pyStrptimeYWw (y week pyw : Nat) : Nat :=
  let jan1 := dateOrdinal y 1 1
  let firstWeekday := weekdayMon0 jan1
  let dayOfWeek := if pyw = 0 then 6 else pyw - 1
  let week0len := (7 - firstWeekday) % 7
  let julian := 1 + week0len + 7 * (week - 1) + dayOfWeek
  jan1 + julian - 1

/-- `markdown_utils.get_week_string`: `f"{year}-W{week:02d}"` from
`date.isocalendar()`. -/
def get_week_string (y m d : Nat) : String :=
  let yw := pyIsocalendarYW y m d
  toString yw.1 ++ "-W" ++ pad2 yw.2

/-- The weekly-report handler's window start
(`generate_weekly_report/handler.py` lines 41-42):
`year, week, _ = target_date.isocalendar()` followed by
`datetime.strptime(f'{year}-W{week:02d}-1', '%Y-W%W-%w')`. -/
def weeklyWindowStart (y m d : Nat) : Nat :=
  let yw := pyIsocalendarYW y m d
  pyStrptimeYWw yw.1 yw.2 1

/-- The Monday beginning the ISO week of the target date: what the spec
says the weekly window starts at. -/
def isoWeekMonday (y m d : Nat) : Nat :=
  let o := dateOrdinal y m d
  o - weekdayMon0 o

/-! ## The index store (`shared/dynamodb_client.py`)

The DynamoDB table is a list of items; an item is a `(PK, SK)` key plus
an attribute map (an association list, first binding wins, keys unique in
all states the client produces).  `put_item` is a full replace of the item
with the same key, `update_item` with a `SET` expression is a partial
merge that creates the item when absent (DynamoDB upsert semantics). -/

/-- A DynamoDB attribute value (the fragment the client stores). -/
inductive DVal where
  | s (v : String)
  | b (v : Bool)
  | l (vs : List DVal)
  | m (kvs : List (String × DVal))

/-- Attribute maps. -/
abbrev Attrs := List (String × DVal)

/-- First-match association lookup (Python `dict` access). -/
def lookupAttr (a : Attrs) (k : String) : Option DVal :=
  match a with
  | [] => none
  | (k', v) :: rest => if k' = k then some v else lookupAttr rest k

/-- Set attribute `k` to `v`: replace the first binding of `k`, or append
a new binding. -/
def setAttr (a : Attrs) (k : String) (v : DVal) : Attrs :=
  match a with
  | [] => [(k, v)]
  | (k', v') :: rest => if k' = k then (k, v) :: rest else (k', v') :: setAttr rest k v

/-- A stored item. -/
structure Item where
  pk : String
  sk : String
  attrs : Attrs

/-- The table state. -/
abbrev Table := List Item

/-- `table.put_item(Item=...)`: full replace of the item with the same
`(PK, SK)`, insert if absent. -/
def putItem (t : Table) (it : Item) : Table :=
  match t with
  | [] => [it]
  | x :: xs => if x.pk = it.pk ∧ x.sk = it.sk then it :: xs else x :: putItem xs it

/-- Apply a list of `SET k = v` clauses to an attribute map. -/
def applySets (a : Attrs) (sets : Attrs) : Attrs :=
  sets.foldl (fun acc p => setAttr acc p.1 p.2) a

/-- `table.update_item(Key=..., UpdateExpression='SET ...')`: partial
merge of the named attributes on the item with key `(pk, sk)`; DynamoDB
creates the item when it does not exist. -/
def updateItemSet (t : Table) (pk sk : String) (sets : Attrs) : Table :=
  match t with
  | [] => [⟨pk, sk, applySets [] sets⟩]
  | x :: xs =>
    if x.pk = pk ∧ x.sk = sk then { x with attrs := applySets x.attrs sets } :: xs
    else x :: updateItemSet xs pk sk sets

/-- `DynamoDBClient.put_document_metadata(file_path, metadata)`: builds
`{'PK': f'doc#{file_path}', 'SK': 'metadata', **metadata}`, adds
`modified = utcnow()` if absent, and issues a full-replace `put_item`. -/
def put_document_metadata (t : Table) (file_path : String) (metadata : Attrs)
    (now : String) : Table :=
  let item := if (lookupAttr metadata "modified").isSome then metadata
              else setAttr metadata "modified" (.s now)
  putItem t ⟨"doc#" ++ file_path, "metadata", item⟩

/-- `DynamoDBClient.get_document_metadata(file_path)` (attribute map of
the document record, without the key attributes). -/
def get_document_metadata (t : Table) (file_path : String) : Option Attrs :=
  match t with
  | [] => none
  | it :: rest =>
    if it.pk = "doc#" ++ file_path ∧ it.sk = "metadata" then some it.attrs
    else get_document_metadata rest file_path

/-- `DynamoDBClient.update_classification(file_path, classification)`:
`update_item` with `SET classification = :c, modified = :m`. -/
def update_classification (t : Table) (file_path classification : String)
    (now : String) : Table :=
  updateItemSet t ("doc#" ++ file_path) "metadata"
    [("classification", .s classification), ("modified", .s now)]

/-- Encode an extracted-entities mapping as the stored attribute value. -/
def entitiesVal (entities : List (String × List String)) : DVal :=
  .m (entities.map fun p => (p.1, .l (p.2.map .s)))

/-- `DynamoDBClient.store_entities(file_path, entities)`: partial merge of
`entities` and `modified` on the document record, then one membership
`put_item` per `(type, name)` pair, keyed by
`entity#{type}#{name.lower()}` / `doc#{path}`. -/
def store_entities (t : Table) (file_path : String)
    (entities : List (String × List String)) (now : String) : Table :=
  let t1 := updateItemSet t ("doc#" ++ file_path) "metadata"
    [("entities", entitiesVal entities), ("modified", .s now)]
  entities.foldl
    (fun acc p =>
      p.2.foldl
        (fun acc2 name =>
          let ekey := "entity#" ++ p.1 ++ "#" ++ pyLower name
          putItem acc2 ⟨ekey, "doc#" ++ file_path,
            [("entity_key", .s ekey), ("entity_type", .s p.1),
             ("entity_name", .s name), ("document_path", .s file_path),
             ("modified", .s now)]⟩)
        acc)
    t1

/-- `DynamoDBClient.get_entity_mentions(entity_type, entity_name)`: query
the `entity-index` GSI for items whose `entity_key` attribute equals
`entity#{type}#{name.lower()}` and strip the `doc#` key prefix
(`item['SK'].replace('doc#', '')`). -/
def get_entity_mentions (t : Table) (entity_type entity_name : String) : List String :=
  let ekey := "entity#" ++ entity_type ++ "#" ++ pyLower entity_name
  (t.filter fun it =>
      match lookupAttr it.attrs "entity_key" with
      | some (.s v) => v = ekey
      | _ => false).map
    fun it => pyReplace it.sk "doc#" ""

/-- The persist step of the classification stage
(`classify_document/handler.py` lines 94-97):
`metadata['classification'] = classification`,
`metadata['modified'] = utcnow()`, then a full-replace
`put_document_metadata` — not `update_classification`. -/
def classify_persist (t : Table) (object_key : String) (metadata : Attrs)
    (classification : String) (now : String) : Table :=
  put_document_metadata t object_key
    (setAttr (setAttr metadata "classification" (.s classification)) "modified" (.s now))
    now

/-! ## Markdown materializers (`shared/markdown_utils.py`)

`datetime.utcnow().isoformat()` is passed in as `now`.  The frontmatter
dictionaries the renderers build are modelled as association lists given
in the alphabetical key order that `yaml.dump` (with its default
`sort_keys=True`) emits. -/

/-- A frontmatter value as the renderers produce it. -/
inductive FMVal where
  | str (s : String)
  | nat (n : Nat)
  | strList (xs : List String)

/-- Render one frontmatter value in `yaml.dump(..., default_flow_style=False)`
block style (plain scalars; no claim depends on YAML's scalar-quoting
corner cases). -/
def renderFMEntry (p : String × FMVal) : String :=
  match p.2 with
  | .str s => p.1 ++ ": " ++ s ++ "\n"
  | .nat n => p.1 ++ ": " ++ toString n ++ "\n"
  | .strList xs => p.1 ++ ":\n" ++ String.join (xs.map fun x => "- " ++ x ++ "\n")

/-- `markdown_utils.create_frontmatter(metadata)`:
`f"---\n{yaml.dump(metadata)}---\n"`. -/
def create_frontmatter (metadata : List (String × FMVal)) : String :=
  "---\n" ++ String.join (metadata.map renderFMEntry) ++ "---\n"

/-- An entity mention as the materializer consumes it
(`{'path': ..., 'context': ...}`). -/
structure Mention where
  path : String
  context : String

/-- `markdown_utils.create_entity_page(entity_name, entity_type, mentions)`.
Frontmatter keys in `yaml.dump` order: `last_updated`, `mentioned_in`,
`type`; `now` is the `datetime.utcnow().isoformat()` reading of this
invocation. -/
def create_entity_page (entity_name entity_type : String)
    (mentions : List Mention) (now : String) : String :=
  let frontmatter : List (String × FMVal) :=
    [("last_updated", .str (now ++ "Z")),
     ("mentioned_in", .strList (mentions.map (·.path))),
     ("type", .str entity_type)]
  let mentions_text :=
    String.intercalate "\n" (mentions.map fun m => "- [[" ++ m.path ++ "]] - " ++ m.context)
  create_frontmatter frontmatter ++ "\n# " ++ entity_name ++ "\n\n## Mentions\n"
    ++ mentions_text ++ "\n"

/-- The fixed display order of classification labels
(`classification_order` in `create_classification_index`). -/
def classification_order : List String :=
  ["meeting", "idea", "reference", "journal", "project"]

/-- Python `dict` membership-plus-access for the classifications mapping. -/
def lookupDocs (classifications : List (String × List String)) (c : String) :
    Option (List String) :=
  match classifications.find? (fun p => p.1 = c) with
  | some p => some p.2
  | none => none

/-- Python `sorted` on strings: the unique lexicographically (by code
point) sorted permutation.  Insertion sort is extensionally `sorted` here
because equal strings are indistinguishable. -/
def pySorted (xs : List String) : List String :=
  List.insertionSort pyLe xs

/-- The sections of the classification index, in source order: for each
label of `classification_order` that is present with a non-empty document
list, the pair of the label and its sorted paths. -/
def indexSections (classifications : List (String × List String)) :
    List (String × List String) :=
  classification_order.filterMap fun c =>
    match lookupDocs classifications c with
    | some docs => if docs.isEmpty then none else some (c, pySorted docs)
    | none => none

/-- `markdown_utils.create_classification_index(classifications)`:
for each label of `classification_order` present with a non-empty list,
a `## {Label}` section with one `- [[path]]` bullet per sorted path;
sections joined by blank lines.  Frontmatter keys in `yaml.dump` order:
`generated`, `tags`. -/
def create_classification_index (classifications : List (String × List String))
    (now : String) : String :=
  let frontmatter : List (String × FMVal) :=
    [("generated", .str (now ++ "Z")),
     ("tags", .strList ["index", "agent-generated"])]
  let sections := (indexSections classifications).map fun p =>
    "## " ++ pyCapitalize p.1 ++ "\n"
      ++ String.intercalate "\n" (p.2.map fun doc => "- [[" ++ doc ++ "]]")
  create_frontmatter frontmatter ++ "\n# Document Classifications\n\n"
    ++ String.intercalate "\n\n" sections ++ "\n"

/-! ## Bedrock response validation (`shared/bedrock_client.py`)

The generative model is an external collaborator; each function below
takes the raw text that `invoke_model` returned for the relevant prompt
and models the response handling that follows it. -/

/-- The fixed classification enum (`valid_classifications`). -/
def valid_classifications : List String :=
  ["meeting", "idea", "reference", "journal", "project"]

/-- `BedrockClient.classify_document`, from the model response onwards:
`classification = response.strip().lower()`, returned when it is in the
enum, else the fixed fallback `'reference'`. -/
def classify_document (response : String) : String :=
  let classification := pyLower (pyStrip response)
  if classification ∈ valid_classifications then classification else "reference"

/-! ## JSON (`json.loads`) and `BedrockClient.extract_entities`

A small faithful model of `json.loads`: a recursive-descent parser driven
by a fuel parameter bounded by the input length (every recursive call
strictly decreases the fuel, and the chosen fuel is large enough for any
input, so the fuel never runs out on the way to a verdict). -/

/-- A parsed JSON value.  Numbers keep their lexeme (their numeric value
plays no role in the client). -/
inductive Json where
  | null
  | bool (b : Bool)
  | num (lexeme : String)
  | str (s : String)
  | arr (xs : List Json)
  | obj (kvs : List (String × Json))

/-- JSON structural whitespace. -/
def jsonWs (c : Char) : Bool :=
  c = ' ' || c = '\t' || c = '\n' || c = '\r'

/-- Skip JSON whitespace. -/
def skipJsonWs (cs : List Char) : List Char :=
  cs.dropWhile jsonWs

/-- Decode one hex digit. -/
def hexVal (c : Char) : Option Nat :=
  if '0' ≤ c ∧ c ≤ '9' then some (c.toNat - '0'.toNat)
  else if 'a' ≤ c ∧ c ≤ 'f' then some (c.toNat - 'a'.toNat + 10)
  else if 'A' ≤ c ∧ c ≤ 'F' then some (c.toNat - 'A'.toNat + 10)
  else none

/-- Parse the body of a JSON string literal (after the opening quote),
returning the decoded characters and the input after the closing quote.
Strict mode: unescaped control characters are rejected.  `\uXXXX` escapes
are decoded codepoint-wise (surrogate pairs are combined; a lone
surrogate, unrepresentable in a Lean `Char`, falls to the replacement
character — no claim touches this corner). -/
def parseJsonStr : Nat → List Char → Option (List Char × List Char)
  | 0, _ => none
  | _ + 1, [] => none
  | fuel + 1, c :: cs =>
    if c = '"' then some ([], cs)
    else if c = '\\' then
      match cs with
      | [] => none
      | e :: cs2 =>
        let simple : Option Char :=
          if e = '"' then some '"' else if e = '\\' then some '\\'
          else if e = '/' then some '/' else if e = 'b' then some '\x08'
          else if e = 'f' then some '\x0c' else if e = 'n' then some '\n'
          else if e = 'r' then some '\r' else if e = 't' then some '\t'
          else none
        match simple with
        | some d =>
          match parseJsonStr fuel cs2 with
          | some (tail, rest) => some (d :: tail, rest)
          | none => none
        | none =>
          if e = 'u' then
            match cs2 with
            | h1 :: h2 :: h3 :: h4 :: cs3 =>
              match hexVal h1, hexVal h2, hexVal h3, hexVal h4 with
              | some a, some b, some c', some d =>
                let n := ((a * 16 + b) * 16 + c') * 16 + d
                if 0xD800 ≤ n ∧ n ≤ 0xDBFF then
                  match cs3 with
                  | '\\' :: 'u' :: g1 :: g2 :: g3 :: g4 :: cs4 =>
                    match hexVal g1, hexVal g2, hexVal g3, hexVal g4 with
                    | some a2, some b2, some c2, some d2 =>
                      let n2 := ((a2 * 16 + b2) * 16 + c2) * 16 + d2
                      if 0xDC00 ≤ n2 ∧ n2 ≤ 0xDFFF then
                        let cp := 0x10000 + (n - 0xD800) * 0x400 + (n2 - 0xDC00)
                        match parseJsonStr fuel cs4 with
                        | some (tail, rest) => some (Char.ofNat cp :: tail, rest)
                        | none => none
                      else
                        match parseJsonStr fuel cs3 with
                        | some (tail, rest) => some ('�' :: tail, rest)
                        | none => none
                    | _, _, _, _ =>
                      match parseJsonStr fuel cs3 with
                      | some (tail, rest) => some ('�' :: tail, rest)
                      | none => none
                  | _ =>
                    match parseJsonStr fuel cs3 with
                    | some (tail, rest) => some ('�' :: tail, rest)
                    | none => none
                else
                  match parseJsonStr fuel cs3 with
                  | some (tail, rest) => some (Char.ofNat n :: tail, rest)
                  | none => none
              | _, _, _, _ => none
            | _ => none
          else none
    else if c.toNat < 0x20 then none
    else
      match parseJsonStr fuel cs with
      | some (tail, rest) => some (c :: tail, rest)
      | none => none

/-- Parse a JSON number lexeme (grammar `-?(0|[1-9][0-9]*)(\.[0-9]+)?([eE][+-]?[0-9]+)?`),
returning it together with the rest of the input. -/
def parseJsonNum (cs : List Char) : Option (List Char × List Char) :=
  let sign : List Char × List Char :=
    match cs with
    | '-' :: rest => (['-'], rest)
    | _ => ([], cs)
  let intPart : Option (List Char × List Char) :=
    match sign.2 with
    | '0' :: rest => some (['0'], rest)
    | c :: _ =>
      if '1' ≤ c ∧ c ≤ '9' then
        some (sign.2.takeWhile Char.isDigit, sign.2.dropWhile Char.isDigit)
      else none
    | [] => none
  match intPart with
  | none => none
  | some (ip, afterInt) =>
    let frac : Option (List Char × List Char) :=
      match afterInt with
      | '.' :: rest =>
        let ds := rest.takeWhile Char.isDigit
        if ds.isEmpty then none else some ('.' :: ds, rest.dropWhile Char.isDigit)
      | _ => some ([], afterInt)
    match frac with
    | none => none
    | some (fp, afterFrac) =>
      let expo : Option (List Char × List Char) :=
        match afterFrac with
        | e :: rest =>
          if e = 'e' ∨ e = 'E' then
            let signRest : List Char × List Char :=
              match rest with
              | s' :: rest2 => if s' = '+' ∨ s' = '-' then ([s'], rest2) else ([], rest)
              | [] => ([], rest)
            let ds := signRest.2.takeWhile Char.isDigit
            if ds.isEmpty then none
            else some (e :: signRest.1 ++ ds, signRest.2.dropWhile Char.isDigit)
          else some ([], afterFrac)
        | [] => some ([], afterFrac)
      match expo with
      | none => none
      | some (ep, rest) => some (sign.1 ++ ip ++ fp ++ ep, rest)

/-- Insert or update a key in an object's member list (Python `dict`:
first occurrence keeps its position, a new key is appended). -/
def jsonSetKey (kvs : List (String × Json)) (k : String) (v : Json) :
    List (String × Json) :=
  match kvs with
  | [] => [(k, v)]
  | (k', v') :: rest => if k' = k then (k, v) :: rest else (k', v') :: jsonSetKey rest k v

mutual

/-- Parse one JSON value (after skipping leading whitespace). -/
def parseJsonValue : Nat → List Char → Option (Json × List Char)
  | 0, _ => none
  | fuel + 1, cs =>
    match skipJsonWs cs with
    | [] => none
    | '{' :: rest =>
      (match skipJsonWs rest with
       | '}' :: rest2 => some (.obj [], rest2)
       | _ => parseJsonMembers fuel (skipJsonWs rest) [])
    | '[' :: rest =>
      (match skipJsonWs rest with
       | ']' :: rest2 => some (.arr [], rest2)
       | _ => parseJsonItems fuel (skipJsonWs rest) [])
    | 't' :: 'r' :: 'u' :: 'e' :: rest => some (.bool true, rest)
    | 'f' :: 'a' :: 'l' :: 's' :: 'e' :: rest => some (.bool false, rest)
    | 'n' :: 'u' :: 'l' :: 'l' :: rest => some (.null, rest)
    | 'N' :: 'a' :: 'N' :: rest => some (.num "NaN", rest)
    | 'I' :: 'n' :: 'f' :: 'i' :: 'n' :: 'i' :: 't' :: 'y' :: rest =>
      some (.num "Infinity", rest)
    | '-' :: 'I' :: 'n' :: 'f' :: 'i' :: 'n' :: 'i' :: 't' :: 'y' :: rest =>
      some (.num "-Infinity", rest)
    | '"' :: rest =>
      (match parseJsonStr fuel rest with
       | some (chars, rest2) => some (.str ⟨chars⟩, rest2)
       | none => none)
    | cs' =>
      (match parseJsonNum cs' with
       | some (lexeme, rest) => some (.num ⟨lexeme⟩, rest)
       | none => none)

/-- Parse the members of a JSON object after the opening brace (first
member expected next).  As `json.loads` does, a repeated key keeps the
last value (Python `dict` update). -/
def parseJsonMembers : Nat → List Char → List (String × Json) →
    Option (Json × List Char)
  | 0, _, _ => none
  | fuel + 1, cs, acc =>
    match skipJsonWs cs with
    | '"' :: rest =>
      (match parseJsonStr fuel rest with
       | some (kchars, rest2) =>
         (match skipJsonWs rest2 with
          | ':' :: rest3 =>
            (match parseJsonValue fuel rest3 with
             | some (v, rest4) =>
               let acc' := jsonSetKey acc ⟨kchars⟩ v
               (match skipJsonWs rest4 with
                | ',' :: rest5 => parseJsonMembers fuel rest5 acc'
                | '}' :: rest5 => some (.obj acc', rest5)
                | _ => none)
             | none => none)
          | _ => none)
       | none => none)
    | _ => none

/-- Parse the items of a JSON array after the opening bracket (first item
expected next). -/
def parseJsonItems : Nat → List Char → List Json → Option (Json × List Char)
  | 0, _, _ => none
  | fuel + 1, cs, acc =>
    match parseJsonValue fuel cs with
    | some (v, rest) =>
      (match skipJsonWs rest with
       | ',' :: rest2 => parseJsonItems fuel rest2 (acc ++ [v])
       | ']' :: rest2 => some (.arr (acc ++ [v]), rest2)
       | _ => none)
    | none => none

end

/-- `json.loads`: parse a complete document (whitespace around the value
allowed, nothing after it), `none` for a `json.JSONDecodeError`. -/
def pyJsonLoads (s : String) : Option Json :=
  match parseJsonValue (2 * s.data.length + 8) s.data with
  | some (j, rest) => if skipJsonWs rest = [] then some j else none
  | none => none

/-- Does a JSON value equal the Python string `k`?  (`==` against a `str`
is only true for an equal `str`.) -/
def jsonIsStrEq (j : Json) (k : String) : Bool :=
  match j with
  | .str s => s = k
  | _ => false

/-- Python `k in entities` on a parsed JSON value: key lookup for a dict,
element equality for a list, substring test for a str, and a `TypeError`
(modelled as `Except.error ()`) for the non-container types. -/
def pyContains (j : Json) (k : String) : Except Unit Bool :=
  match j with
  | .obj kvs => .ok (kvs.any fun p => p.1 = k)
  | .arr xs => .ok (xs.any fun x => jsonIsStrEq x k)
  | .str s => .ok (pyInStr k s)
  | _ => .error ()

/-- Python `entities[k] = v`: item assignment succeeds only on a dict;
on any other parsed value it raises a `TypeError`. -/
def pySetItemJson (j : Json) (k : String) (v : Json) : Except Unit Json :=
  match j with
  | .obj kvs => .ok (.obj (jsonSetKey kvs k v))
  | _ => .error ()

/-- The four entity categories (`expected_keys`). -/
def expected_entity_keys : List String :=
  ["people", "organizations", "concepts", "locations"]

/-- The all-empty entities mapping. -/
def emptyEntities : Json :=
  .obj [("people", .arr []), ("organizations", .arr []),
        ("concepts", .arr []), ("locations", .arr [])]

/-- The backfill loop of `extract_entities`:
`for key in expected_keys: if key not in entities: entities[key] = []`.
Exceptions raised by `in` or by the item assignment propagate. -/
def backfillKeys (keys : List String) (j : Json) : Except Unit Json :=
  match keys with
  | [] => .ok j
  | k :: rest =>
    match pyContains j k with
    | .error e => .error e
    | .ok c =>
      if c then backfillKeys rest j
      else
        match pySetItemJson j k (.arr []) with
        | .error e => .error e
        | .ok j' => backfillKeys rest j'

/-- `BedrockClient.extract_entities`, from the model response onwards:
`entities = json.loads(response.strip())`, then the backfill loop.  Only
`json.JSONDecodeError` is caught (yielding the all-empty mapping); any
other exception propagates out of the function. -/
def extract_entities (response : String) : Except Unit Json :=
  match pyJsonLoads (pyStrip response) with
  | none => .ok emptyEntities
  | some entities => backfillKeys expected_entity_keys entities

/-! ## Metadata extractor (`shared/markdown_utils.py`)

The YAML library is an external collaborator: `yaml.safe_load` is passed
in as a function `yamlLoad` returning a parsed value or a `YAMLError`
(YAML semantics facts used by a claim, e.g. that an empty document loads
as `None`, appear as hypotheses on `yamlLoad`).  The regular expressions
of the source are modelled directly, including their backtracking
priorities (greedy `\s*`, lazy `(.*?)`). -/

/-- A value produced by `yaml.safe_load` (the fragment with string keys
that the extractor manipulates). -/
inductive YamlValue where
  | null
  | bool (b : Bool)
  | int (n : Int)
  | str (s : String)
  | list (xs : List YamlValue)
  | map (kvs : List (String × YamlValue))

/-- Python truthiness of a YAML value (`None`, `False`, `0`, `''`, `[]`,
`{}` are falsy). -/
def yamlTruthy : YamlValue → Bool
  | .null => false
  | .bool b => b
  | .int n => n ≠ 0
  | .str s => s ≠ ""
  | .list xs => ¬xs.isEmpty
  | .map kvs => ¬kvs.isEmpty

mutual

/-- Python `repr` of a YAML value (simplified: string escapes are not
re-encoded; no claim depends on container rendering). -/
def pyReprYaml : YamlValue → String
  | .null => "None"
  | .bool b => if b then "True" else "False"
  | .int n => toString n
  | .str s => "'" ++ s ++ "'"
  | .list xs => "[" ++ String.intercalate ", " (pyReprYamlList xs) ++ "]"
  | .map kvs => "\x7b" ++ String.intercalate ", " (pyReprYamlKvs kvs) ++ "\x7d"

/-- `repr` of the elements of a list. -/
def pyReprYamlList : List YamlValue → List String
  | [] => []
  | x :: xs => pyReprYaml x :: pyReprYamlList xs

/-- `repr` of the entries of a dict. -/
def pyReprYamlKvs : List (String × YamlValue) → List String
  | [] => []
  | p :: xs => ("'" ++ p.1 ++ "': " ++ pyReprYaml p.2) :: pyReprYamlKvs xs

end

/-- Python `str(x)` of a YAML value (equals `repr` for containers). -/
def pyStrOfYaml : YamlValue → String
  | .null => "None"
  | .bool b => if b then "True" else "False"
  | .int n => toString n
  | .str s => s
  | .list xs => pyReprYaml (.list xs)
  | .map kvs => pyReprYaml (.map kvs)

/-- Python `k in fm` on a YAML value (dict key / list element / substring;
`TypeError` on scalars). -/
def yamlContains (fm : YamlValue) (k : String) : Except Unit Bool :=
  match fm with
  | .map kvs => .ok (kvs.any fun p => p.1 = k)
  | .list xs => .ok (xs.any fun x => match x with | .str s => s = k | _ => false)
  | .str s => .ok (pyInStr k s)
  | _ => .error ()

/-- Python `fm[k]` on a YAML value: succeeds only on a dict (call sites
guard with `k in fm` first; string indexing by a string raises
`TypeError`). -/
def yamlGetItem (fm : YamlValue) (k : String) : Except Unit YamlValue :=
  match fm with
  | .map kvs =>
    (match kvs.find? (fun p => p.1 = k) with
     | some p => .ok p.2
     | none => .error ())
  | _ => .error ()

/-- Python `fm.items()`: only a dict has it. -/
def yamlItems : YamlValue → Except Unit (List (String × YamlValue))
  | .map kvs => .ok kvs
  | _ => .error ()

/-- The `yaml.safe_load` collaborator: a YAML document to a value or a
`yaml.YAMLError`. -/
abbrev YamlLoad := String → Except Unit YamlValue

/-- Length of the leading `\s*` run. -/
def wsPrefixLen (cs : List Char) : Nat :=
  (cs.takeWhile pyIsSpace).length

/-- Match `\s*\n` at the start of `cs` with the greedy `\s*` consuming `k`
characters, backtracking `k` downwards; returns the input after the
newline.  Callers start at `k = wsPrefixLen cs`, so positions `0..k-1`
are whitespace. -/
def tryWsNl (cs : List Char) : Nat → Option (List Char)
  | 0 => if cs.get? 0 = some '\n' then some (cs.drop 1) else none
  | k + 1 =>
    if cs.get? (k + 1) = some '\n' then some (cs.drop (k + 2))
    else tryWsNl cs k

/-- The lazy tail `(.*?)\n---\s*\n(.*)$` of the frontmatter pattern
(`re.DOTALL`): at each position, first try to close the block here, else
grow group 1 by one character.  Fuel is the scanned length. -/
def fmFindClose : Nat → List Char → Option (List Char × List Char)
  | 0, _ => none
  | _ + 1, [] => none
  | fuel + 1, c :: cs =>
    let closed : Option (List Char) :=
      match c :: cs with
      | '\n' :: '-' :: '-' :: '-' :: after => tryWsNl after (wsPrefixLen after)
      | _ => none
    match closed with
    | some g2 => some ([], g2)
    | none =>
      match fmFindClose fuel cs with
      | some (g1, g2) => some (c :: g1, g2)
      | none => none

/-- One choice of the greedy `\s*\n` after the opening `---`: `\s*`
consumes `k` characters, then the lazy close search runs on the rest. -/
def fmHeaderAttempt (rest : List Char) (k : Nat) : Option (String × String) :=
  if rest.get? k = some '\n' then
    match fmFindClose (rest.drop (k + 1)).length (rest.drop (k + 1)) with
    | some (g1, g2) => some (⟨g1⟩, ⟨g2⟩)
    | none => none
  else none

/-- The greedy `\s*\n` after the opening `---`, backtracking `k`
downwards, each choice continuing with the lazy close search. -/
def fmHeader (rest : List Char) : Nat → Option (String × String)
  | 0 => fmHeaderAttempt rest 0
  | k + 1 =>
    match fmHeaderAttempt rest (k + 1) with
    | some r => some r
    | none => fmHeader rest k

/-- `re.match(r'^---\s*\n(.*?)\n---\s*\n(.*)$', content, re.DOTALL)`:
the frontmatter block (group 1) and the body (group 2), or `none`. -/
def fmMatch (content : String) : Option (String × String) :=
  match content.data with
  | '-' :: '-' :: '-' :: rest => fmHeader rest (wsPrefixLen rest)
  | _ => none

/-- `markdown_utils.extract_frontmatter(content)`: on a pattern match,
`yaml.safe_load` the block and return `frontmatter or {}` with the body;
on `YAMLError` — or no match — return no frontmatter and the whole
original content. -/
def extract_frontmatter (yamlLoad : YamlLoad) (content : String) :
    Option YamlValue × String :=
  match fmMatch content with
  | some (fmStr, body) =>
    (match yamlLoad fmStr with
     | .ok v => (some (if yamlTruthy v then v else .map []), body)
     | .error _ => (none, content))
  | none => (none, content)

/-- Characters of the inline-hashtag class `[a-zA-Z0-9_-]`. -/
def isTagChar (c : Char) : Bool :=
  ('a' ≤ c ∧ c ≤ 'z') || ('A' ≤ c ∧ c ≤ 'Z') || ('0' ≤ c ∧ c ≤ '9') || c = '_' || c = '-'

/-- `re.findall(r'(?:^|\s)#([a-zA-Z0-9_-]+)', content)` from a non-start
position onwards: a match consumes one whitespace, the `#`, and the tag
run; on failure the scan advances one character.  Fuel is the scanned
length, which every step strictly decreases. -/
def scanTagsAux : Nat → List Char → List String
  | 0, _ => []
  | _ + 1, [] => []
  | fuel + 1, c :: cs =>
    if pyIsSpace c then
      match cs with
      | '#' :: cs2 =>
        let run := cs2.takeWhile isTagChar
        if run.isEmpty then scanTagsAux fuel cs
        else (⟨run⟩ : String) :: scanTagsAux fuel (cs2.drop run.length)
      | _ => scanTagsAux fuel cs
    else scanTagsAux fuel cs

/-- All inline hashtag captures, in match order (the `^` alternative only
applies at position zero). -/
def findHashtags (content : String) : List String :=
  let cs := content.data
  match cs with
  | '#' :: cs2 =>
    let run := cs2.takeWhile isTagChar
    if run.isEmpty then scanTagsAux cs.length cs
    else (⟨run⟩ : String) :: scanTagsAux cs.length (cs2.drop run.length)
  | _ => scanTagsAux cs.length cs

/-- `re.findall(r'\[\[([^\]|]+)(?:\|[^\]]+)?\]\]', content)`: scan for
non-overlapping wikilinks, capturing the target before an optional
`|display` part; on failure at a `[[` the scan advances one character.
Fuel is the scanned length, which every step strictly decreases. -/
def scanWikiAux : Nat → List Char → List String
  | 0, _ => []
  | _ + 1, [] => []
  | fuel + 1, '[' :: '[' :: rest =>
    let g1 := rest.takeWhile fun c => c ≠ ']' ∧ c ≠ '|'
    if g1.isEmpty then scanWikiAux fuel ('[' :: rest)
    else
      (match rest.drop g1.length with
       | ']' :: ']' :: r2 => (⟨g1⟩ : String) :: scanWikiAux fuel r2
       | '|' :: r2 =>
         let d := r2.takeWhile (· ≠ ']')
         if d.isEmpty then scanWikiAux fuel ('[' :: rest)
         else
           (match r2.drop d.length with
            | ']' :: ']' :: r3 => (⟨g1⟩ : String) :: scanWikiAux fuel r3
            | _ => scanWikiAux fuel ('[' :: rest))
       | _ => scanWikiAux fuel ('[' :: rest))
  | fuel + 1, _ :: cs => scanWikiAux fuel cs

/-- `markdown_utils.extract_wikilinks(content)`:
`list(set([link.strip() for link in matches]))` — stripped captures,
deduplicated (canonical first-occurrence enumeration of the set). -/
def extract_wikilinks (content : String) : List String :=
  dedupKeepFirst ((scanWikiAux content.data.length content.data).map pyStrip)

/-- `re.search(r'^#\s+(.+)$', content, re.MULTILINE)` at one line start
already positioned on `'#'` with `after` the characters following it:
the greedy `\s+` (which may cross newlines) backtracks until `(.+)$` can
take at least one non-newline character up to the end of its line. -/
def h1AtLineStart (after : List Char) : Option String :=
  let run := after.takeWhile pyIsSpace
  if run.isEmpty then none
  else
    match after.drop run.length with
    | c :: restLine => some (⟨(c :: restLine).takeWhile (· ≠ '\n')⟩ : String)
    | [] =>
      let tailNoNl := (run.reverse.takeWhile (· ≠ '\n')).reverse
      let captured := if tailNoNl.length = run.length then run.drop 1 else tailNoNl
      if captured.isEmpty then none else some (⟨captured⟩ : String)

/-- Scan the line starts of the content for the first `^#\s+(.+)$` match.
Fuel is the scanned length. -/
def findH1Aux : Nat → List Char → Option String
  | 0, _ => none
  | _ + 1, [] => none
  | fuel + 1, c :: cs =>
    let here : Option String := if c = '#' then h1AtLineStart cs else none
    match here with
    | some t => some t
    | none =>
      match (c :: cs).dropWhile (· ≠ '\n') with
      | _ :: nextLine => findH1Aux fuel nextLine
      | [] => none

/-- The first H1 capture of the content, if any. -/
def findH1 (content : String) : Option String :=
  findH1Aux content.data.length content.data

/-- The H1-or-default branch of `extract_title`. -/
def h1OrUntitled (content : String) : String :=
  match findH1 content with
  | some t => pyStrip t
  | none => "Untitled"

/-- `markdown_utils.extract_title(content, frontmatter)`: the stripped
`str()` of the frontmatter `title` if the frontmatter is truthy and has
one, else the first H1 heading, else `"Untitled"`. -/
def extract_title (content : String) (frontmatter : Option YamlValue) :
    Except Unit String :=
  match frontmatter with
  | some f =>
    if yamlTruthy f then do
      let hasTitle ← yamlContains f "title"
      if hasTitle then do
        let t ← yamlGetItem f "title"
        pure (pyStrip (pyStrOfYaml t))
      else pure (h1OrUntitled content)
    else pure (h1OrUntitled content)
  | none => pure (h1OrUntitled content)

/-- `markdown_utils.extract_tags(content, frontmatter)`: the union of the
frontmatter `tags` (a list of `str(tag).strip()`, or a comma-split
string) and the inline hashtags of the content; a Python `set`, modelled
by the canonical first-occurrence deduplication. -/
def extract_tags (content : String) (frontmatter : Option YamlValue) :
    Except Unit (List String) := do
  let fmTags ←
    match frontmatter with
    | some f =>
      if yamlTruthy f then do
        let hasTags ← yamlContains f "tags"
        if hasTags then do
          let v ← yamlGetItem f "tags"
          match v with
          | .list xs => pure (xs.map fun t => pyStrip (pyStrOfYaml t))
          | .str s => pure ((pySplitComma s).map pyStrip)
          | _ => pure ([] : List String)
        else pure ([] : List String)
      else pure ([] : List String)
    | none => pure ([] : List String)
  pure (dedupKeepFirst (fmTags ++ findHashtags content))

/-- The extractor's result record.  The source builds a `dict`; here the
engine's own fields are explicit and all non-reserved frontmatter keys
are kept in `extra` (a passthrough key that collides with an engine field
name would shadow it in the source's dict — the claims only exercise
absent or empty frontmatter, where `extra` is empty). -/
structure Metadata where
  title : String
  tags : List String
  links_to : List String
  has_frontmatter : Bool
  date : Option String
  created : Option String
  modified : Option String
  extra : List (String × YamlValue)

/-- The reserved frontmatter keys not passed through verbatim. -/
def reservedKeys : List String :=
  ["title", "tags", "date", "created", "modified"]

/-- `markdown_utils.parse_markdown_metadata(content)`: frontmatter split,
tag/title/wikilink extraction from the body, `has_frontmatter`, the
stringified `date`/`created`/`modified`, and the passthrough of all other
frontmatter fields (all under the source's `if frontmatter:` truthiness
guard). -/
def parse_markdown_metadata (yamlLoad : YamlLoad) (content : String) :
    Except Unit Metadata := do
  let fb := extract_frontmatter yamlLoad content
  let frontmatter := fb.1
  let body := fb.2
  let tags ← extract_tags body frontmatter
  let title ← extract_title body frontmatter
  let links := extract_wikilinks body
  match frontmatter with
  | some f =>
    if yamlTruthy f then do
      let hasDate ← yamlContains f "date"
      let dateV ← if hasDate then do
          let v ← yamlGetItem f "date"
          pure (some (pyStrOfYaml v))
        else pure (none : Option String)
      let hasCreated ← yamlContains f "created"
      let createdV ← if hasCreated then do
          let v ← yamlGetItem f "created"
          pure (some (pyStrOfYaml v))
        else pure (none : Option String)
      let hasModified ← yamlContains f "modified"
      let modifiedV ← if hasModified then do
          let v ← yamlGetItem f "modified"
          pure (some (pyStrOfYaml v))
        else pure (none : Option String)
      let items ← yamlItems f
      let extras := items.filter fun p => ¬ p.1 ∈ reservedKeys
      pure ⟨title, tags, links, true, dateV, createdV, modifiedV, extras⟩
    else
      pure ⟨title, tags, links, true, none, none, none, []⟩
  | none =>
    pure ⟨title, tags, links, false, none, none, none, []⟩

/-! ## Daily summary candidate selection (`generate_daily_summary/handler.py`)

The S3 blob store is the collaborator `getObject` (`none` models an
exception while fetching, which the handler logs and skips; an empty
string is S3's "no such key" answer, skipped by the `if content:`
truthiness test). -/

/-- A document record as returned by `get_documents_modified_since`
(the fields the handler reads, each through `.get` with a default). -/
structure DocRec where
  pk : String
  modified : Option String
  title : Option String
deriving DecidableEq

/-- The client-side day-window filter (handler lines 53-56):
`since.isoformat() <= doc.get('modified', '') < until.isoformat()`. -/
def dailyDayDocs (recent : List DocRec) (sinceIso untilIso : String) : List DocRec :=
  recent.filter fun d =>
    pyStrLe sinceIso (d.modified.getD "") && pyStrLt (d.modified.getD "") untilIso

/-- A document selected for summarization. -/
structure SelDoc where
  path : String
  content : String
  title : String
deriving DecidableEq

/-- The content-fetch loop (handler lines 67-85): iterate over
`day_docs[:20]`, strip the `doc#` key prefix, skip `_agent/` paths, fetch
content, skip fetch errors and empty content, and truncate content to
2000 characters. -/
def dailySelectDocs (dayDocs : List DocRec) (getObject : String → Option String) :
    List SelDoc :=
  (dayDocs.take 20).filterMap fun d =>
    let path := pyReplace d.pk "doc#" ""
    if pyStartsWith path "_agent/" then none
    else
      match getObject path with
      | none => none
      | some content =>
        if content = "" then none
        else some ⟨path, pySliceTo content 2000, d.title.getD "Untitled"⟩

/-- An index state for the day 2026-01-10 with 21 in-window documents:
one reserved `_agent/` record first (scan order), then 20 ordinary
notes. -/
def c4recent : List DocRec :=
  ⟨"doc#_agent/summaries/2026-01-09.md", some "2026-01-10T12:00:00", some "Summary"⟩ ::
  (List.range 20).map fun i =>
    ⟨"doc#note" ++ toString i ++ ".md", some "2026-01-10T12:00:00", some "Note"⟩

/-- A prior index state for the classification-persist counterexample:
one document record that already carries extracted entities. -/
def c1table : Table :=
  [⟨"doc#note.md", "metadata",
    [("title", .s "Note"), ("entities", .m [("people", .l [.s "Ann"])]),
     ("modified", .s "2026-01-01T00:00:00")]⟩]

/-- The freshly re-parsed metadata the classification stage builds for
that document (no `entities` key — extraction is a separate stage). -/
def c1parsed : Attrs :=
  [("title", .s "Note"), ("tags", .l []), ("links_to", .l []),
   ("has_frontmatter", .b false)]

/-! ## Order facts about `pyLe` -/

theorem lexLtChars_asymm : ∀ as bs, lexLtChars as bs = true → lexLtChars bs as = false := by
  intro as
  induction as with
  | nil =>
    intro bs h
    cases bs with
    | nil => simp [lexLtChars] at h
    | cons b bs => simp [lexLtChars]
  | cons a as ih =>
    intro bs h
    cases bs with
    | nil => simp [lexLtChars] at h
    | cons b bs =>
      simp only [lexLtChars] at h ⊢
      by_cases h1 : a.toNat < b.toNat
      · have h2 : ¬ b.toNat < a.toNat := by omega
        simp [h1, h2]
      · by_cases h2 : b.toNat < a.toNat
        · simp [h1, h2] at h
        · simp only [h1, h2, if_false] at h ⊢
          exact ih bs h

theorem lexLtChars_conn : ∀ cs as bs, lexLtChars cs as = true →
    lexLtChars cs bs = true ∨ lexLtChars bs as = true := by
  intro cs
  induction cs with
  | nil =>
    intro as bs h
    cases as with
    | nil => simp [lexLtChars] at h
    | cons a as =>
      cases bs with
      | nil => right; simp [lexLtChars]
      | cons b bs => left; simp [lexLtChars]
  | cons c cs ih =>
    intro as bs h
    cases as with
    | nil => simp [lexLtChars] at h
    | cons a as =>
      cases bs with
      | nil => right; simp [lexLtChars]
      | cons b bs =>
        simp only [lexLtChars] at h ⊢
        by_cases hca : c.toNat < a.toNat
        · by_cases hcb : c.toNat < b.toNat
          · left; simp [hcb]
          · by_cases hba : b.toNat < a.toNat
            · right; simp [hba]
            · omega
        · by_cases hac : a.toNat < c.toNat
          · simp [hca, hac] at h
          · simp only [hca, hac, if_false] at h
            by_cases hcb : c.toNat < b.toNat
            · left; simp [hcb]
            · by_cases hbc : b.toNat < c.toNat
              · right
                have hba : b.toNat < a.toNat := by omega
                simp [hba]
              · rcases ih as bs h with h' | h'
                · left; simp [hcb, hbc, h']
                · right
                  simp [show ¬ b.toNat < a.toNat by omega,
                        show ¬ a.toNat < b.toNat by omega, h']

instance : IsTotal String pyLe :=
  ⟨fun a b => by
    unfold pyLe pyStrLe pyStrLt
    by_cases h : lexLtChars b.data a.data = true
    · right
      have := lexLtChars_asymm _ _ h
      simp [this]
    · left
      simp only [Bool.not_eq_true] at h
      simp [h]⟩

instance : IsTrans String pyLe :=
  ⟨fun a b c hab hbc => by
    unfold pyLe pyStrLe pyStrLt at *
    simp only [Bool.not_eq_true'] at hab hbc ⊢
    by_contra h
    simp only [Bool.not_eq_false] at h
    rcases lexLtChars_conn c.data a.data b.data h with h' | h'
    · rw [h'] at hbc
      exact Bool.noConfusion hbc
    · rw [h'] at hab
      exact Bool.noConfusion hab⟩

/-! ## Supporting lemmas for the classification index -/

theorem map_fst_filterMap_sublist {β : Type} (l : List String)
    (g : String → Option (String × β)) (hg : ∀ c x, g c = some x → x.1 = c) :
    ((l.filterMap g).map Prod.fst).Sublist l := by
  induction l with
  | nil => simp
  | cons c cs ih =>
    rw [List.filterMap_cons]
    cases h : g c with
    | none => exact ih.cons c
    | some x =>
      rw [List.map_cons, hg c x h]
      exact ih.cons₂ c

theorem indexSections_fn_fst (classifications : List (String × List String)) :
    ∀ c x,
      (fun c =>
        match lookupDocs classifications c with
        | some docs => if docs.isEmpty then none else some (c, pySorted docs)
        | none => none) c = some x → x.1 = c := by
  intro c x h
  cases hl : lookupDocs classifications c with
  | none =>
    simp only [hl] at h
    exact Option.noConfusion h
  | some docs =>
    simp only [hl] at h
    by_cases he : docs.isEmpty
    · simp only [he, if_true] at h
      exact Option.noConfusion h
    · simp only [he, if_false] at h
      cases h
      rfl

end PKM

namespace PKM

/-- C8: the rendered classification index lists the five labels in the
fixed display order, sorts document paths lexicographically within each
label's section, and emits no section for a label with zero matching
documents; the `{meeting: [b, a], idea: []}` input renders only a
"Meeting" section with `a` before `b`. -/
theorem c8_classification_index_render
    (classifications : List (String × List String)) (now : String) :
    ((indexSections classifications).map Prod.fst).Sublist classification_order
    ∧ (∀ c docs, (c, docs) ∈ indexSections classifications →
        docs ≠ [] ∧ List.Sorted pyLe docs
          ∧ docs.Perm ((lookupDocs classifications c).getD []))
    ∧ (∀ c, (lookupDocs classifications c = none ∨
             lookupDocs classifications c = some []) →
        ∀ docs, (c, docs) ∉ indexSections classifications)
    ∧ indexSections [("meeting", ["b", "a"]), ("idea", [])] = [("meeting", ["a", "b"])]
    ∧ create_classification_index [("meeting", ["b", "a"]), ("idea", [])] now
        = create_frontmatter [("generated", .str (now ++ "Z")),
            ("tags", .strList ["index", "agent-generated"])]
          ++ "\n# Document Classifications\n\n## Meeting\n- [[a]]\n- [[b]]\n" := by
  refine ⟨?_, ?_, ?_, by decide, ?_⟩
  · exact map_fst_filterMap_sublist _ _ (indexSections_fn_fst classifications)
  · intro c docs hmem
    rw [indexSections, List.mem_filterMap] at hmem
    obtain ⟨a, _, hga⟩ := hmem
    have hfst := indexSections_fn_fst classifications a _ hga
    cases hl : lookupDocs classifications a with
    | none =>
      simp only [hl] at hga
      exact Option.noConfusion hga
    | some ds =>
      simp only [hl] at hga
      by_cases he : ds.isEmpty
      · simp only [he, if_true] at hga
        exact Option.noConfusion hga
      · simp only [he, if_false] at hga
        injection hga with hga
        have hdocs : pySorted ds = docs := congrArg Prod.snd hga
        refine ⟨?_, ?_, ?_⟩
        · intro hnil
          have hperm : (pySorted ds).Perm ds := List.perm_insertionSort pyLe ds
          rw [hdocs, hnil] at hperm
          have hds : ds = [] := hperm.symm.eq_nil
          rw [hds] at he
          exact he rfl
        · rw [← hdocs]
          exact List.sorted_insertionSort pyLe ds
        · have hca : c = a := hfst
          rw [hca, hl, Option.getD_some, ← hdocs]
          exact List.perm_insertionSort pyLe ds
  · intro c h docs hmem
    rw [indexSections, List.mem_filterMap] at hmem
    obtain ⟨a, _, hga⟩ := hmem
    have hfst := indexSections_fn_fst classifications a _ hga
    have hca : a = c := hfst.symm
    subst hca
    cases hl : lookupDocs classifications a with
    | none =>
      simp only [hl] at hga
      exact Option.noConfusion hga
    | some ds =>
      simp only [hl] at hga
      by_cases he : ds.isEmpty
      · simp only [he, if_true] at hga
        exact Option.noConfusion hga
      · rcases h with h | h
        · rw [hl] at h; exact Option.noConfusion h
        · rw [hl] at h
          injection h with h
          rw [h] at he
          simp [List.isEmpty] at he
  · rw [show ("\n# Document Classifications\n\n## Meeting\n- [[a]]\n- [[b]]\n" : String)
        = "\n# Document Classifications\n\n" ++ "## Meeting\n- [[a]]\n- [[b]]" ++ "\n" from rfl,
      ← String.append_assoc, ← String.append_assoc]
    rfl

end PKM

namespace PKM

theorem c8_classification_index_render_witness :
    ((indexSections [("meeting", ["b", "a"]), ("idea", [])]).map Prod.fst).Sublist
        classification_order
    ∧ (["a", "b"] ≠ [] ∧ List.Sorted pyLe ["a", "b"]
        ∧ List.Perm ["a", "b"]
            ((lookupDocs [("meeting", ["b", "a"]), ("idea", [])] "meeting").getD []))
    ∧ ("idea", ["x"]) ∉ indexSections [("meeting", ["b", "a"]), ("idea", [])] := by
  have h := c8_classification_index_render
    [("meeting", ["b", "a"]), ("idea", [])] "2026-01-01T00:00:00"
  exact ⟨h.1, h.2.1 "meeting" ["a", "b"] (by decide),
    h.2.2.1 "idea" (Or.inr (by decide)) ["x"]⟩

/-- C2 counterexample: the same fixed index state rendered at two
different clock readings yields different bytes for both materializers
(the generation timestamp is embedded in the frontmatter). -/
theorem c2_rebuild_timestamp_counterexample :
    create_entity_page "Acme Corp" "organizations"
        [⟨"a.md", "Mentioned in a.md"⟩] "2026-01-01T00:00:00"
      ≠ create_entity_page "Acme Corp" "organizations"
        [⟨"a.md", "Mentioned in a.md"⟩] "2026-01-01T00:00:01"
    ∧ create_classification_index [("meeting", ["a.md"])] "2026-01-01T00:00:00"
      ≠ create_classification_index [("meeting", ["a.md"])] "2026-01-01T00:00:01" := by
  decide

/-- C2 (amended): materializer rebuilds are deterministic given the index
state and the clock reading — two invocations that observe the same
`utcnow()` produce byte-identical output for both materializers. -/
theorem c2_rebuild_deterministic (entity_name entity_type : String)
    (mentions : List Mention) (classifications : List (String × List String))
    (now now' : String) (h : now = now') :
    create_entity_page entity_name entity_type mentions now
      = create_entity_page entity_name entity_type mentions now'
    ∧ create_classification_index classifications now
      = create_classification_index classifications now' := by
  subst h
  exact ⟨rfl, rfl⟩

theorem c2_rebuild_deterministic_witness :
    create_entity_page "E" "person" [] "2026-01-01T00:00:00"
      = create_entity_page "E" "person" [] "2026-01-01T00:00:00"
    ∧ create_classification_index [] "2026-01-01T00:00:00"
      = create_classification_index [] "2026-01-01T00:00:00" :=
  c2_rebuild_deterministic "E" "person" [] [] "2026-01-01T00:00:00"
    "2026-01-01T00:00:00" rfl

/-- C5: the classification returned to callers is always a member of the
fixed 5-value enum, and a normalized model output outside the enum is
replaced by the fixed fallback `"reference"`. -/
theorem c5_classification_enum_validation (response : String) :
    classify_document response ∈ valid_classifications
    ∧ (pyLower (pyStrip response) ∉ valid_classifications →
        classify_document response = "reference") := by
  unfold classify_document
  by_cases h : pyLower (pyStrip response) ∈ valid_classifications
  · rw [if_pos h]
    exact ⟨h, fun hn => absurd h hn⟩
  · rw [if_neg h]
    exact ⟨by decide, fun _ => rfl⟩

theorem c5_classification_enum_validation_witness :
    classify_document "  Banana! " ∈ valid_classifications
    ∧ classify_document "  Banana! " = "reference" :=
  ⟨(c5_classification_enum_validation "  Banana! ").1,
   (c5_classification_enum_validation "  Banana! ").2 (by decide)⟩

/-- C3: at target date 2026-01-11 (a Sunday, ISO week 2026-W02) the
weekly handler's window start (`strptime` with the non-ISO `%W`
directive) is 2026-01-12, not the Monday 2026-01-05 beginning ISO week
2026-W02 that the spec requires; the target date itself falls outside
the computed window. -/
theorem c3_weekly_window_code_divergence :
    get_week_string 2026 1 11 = "2026-W02"
    ∧ pyIsocalendarYW 2026 1 11 = (2026, 2)
    ∧ weeklyWindowStart 2026 1 11 = dateOrdinal 2026 1 12
    ∧ isoWeekMonday 2026 1 11 = dateOrdinal 2026 1 5
    ∧ weeklyWindowStart 2026 1 11 ≠ isoWeekMonday 2026 1 11
    ∧ ¬ (weeklyWindowStart 2026 1 11 ≤ dateOrdinal 2026 1 11
         ∧ dateOrdinal 2026 1 11 < weeklyWindowStart 2026 1 11 + 7) := by
  decide

end PKM

namespace PKM

theorem jsonSetKey_any_self (kvs : List (String × Json)) (k : String) (v : Json) :
    ((jsonSetKey kvs k v).any fun p => p.1 = k) = true := by
  induction kvs with
  | nil => simp [jsonSetKey]
  | cons p rest ih =>
    obtain ⟨a, b⟩ := p
    unfold jsonSetKey
    by_cases ha : a = k
    · simp [ha]
    · simp only [if_neg ha, List.any_cons]
      rw [ih]
      simp

theorem jsonSetKey_any_mono (kvs : List (String × Json)) (k : String) (v : Json)
    (k' : String) (h : (kvs.any fun p => p.1 = k') = true) :
    ((jsonSetKey kvs k v).any fun p => p.1 = k') = true := by
  induction kvs with
  | nil => simp at h
  | cons p rest ih =>
    obtain ⟨a, b⟩ := p
    rw [List.any_cons] at h
    unfold jsonSetKey
    by_cases ha : a = k
    · rw [if_pos ha, List.any_cons]
      rcases Bool.or_eq_true _ _ |>.mp h with h' | h'
      · simp only [decide_eq_true_eq] at h'
        rw [← ha, h']
        simp
      · rw [h']
        simp
    · rw [if_neg ha, List.any_cons]
      rcases Bool.or_eq_true _ _ |>.mp h with h' | h'
      · rw [h']
        simp
      · rw [ih h']
        simp

theorem backfillKeys_obj (keys : List String) (kvs : List (String × Json)) :
    ∃ kvs', backfillKeys keys (.obj kvs) = .ok (.obj kvs')
      ∧ (∀ k', (kvs.any fun p => p.1 = k') = true →
          (kvs'.any fun p => p.1 = k') = true)
      ∧ (∀ k ∈ keys, (kvs'.any fun p => p.1 = k) = true) := by
  induction keys generalizing kvs with
  | nil => exact ⟨kvs, rfl, fun _ h => h, by simp⟩
  | cons k rest ih =>
    by_cases hc : (kvs.any fun p => p.1 = k) = true
    · obtain ⟨kvs', heq, hmono, hall⟩ := ih kvs
      refine ⟨kvs', ?_, hmono, ?_⟩
      · unfold backfillKeys
        simp only [pyContains, hc, if_true]
        exact heq
      · intro k' hk'
        rcases List.mem_cons.mp hk' with rfl | hm
        · exact hmono _ hc
        · exact hall _ hm
    · have hc' : (kvs.any fun p => p.1 = k) = false := Bool.eq_false_iff.mpr hc
      obtain ⟨kvs', heq, hmono, hall⟩ := ih (jsonSetKey kvs k (.arr []))
      refine ⟨kvs', ?_, ?_, ?_⟩
      · unfold backfillKeys
        simp only [pyContains, hc', Bool.false_eq_true, if_false, pySetItemJson]
        exact heq
      · intro k' h
        exact hmono _ (jsonSetKey_any_mono kvs k (.arr []) k' h)
      · intro k' hk'
        rcases List.mem_cons.mp hk' with rfl | hm
        · exact hmono _ (jsonSetKey_any_self kvs k' (.arr []))
        · exact hall _ hm

/-- C6 (amended): a model response that fails JSON parsing yields the
all-empty entities mapping, and a response parsing to a JSON object is
backfilled so the result contains all four entity categories; however a
response parsing to a non-object JSON value raises an uncaught
`TypeError` (see the counterexample). -/
theorem c6_entity_extraction_fallback (response : String) :
    (pyJsonLoads (pyStrip response) = none →
      extract_entities response = .ok emptyEntities)
    ∧ (∀ kvs, pyJsonLoads (pyStrip response) = some (.obj kvs) →
        ∃ kvs', extract_entities response = .ok (.obj kvs')
          ∧ ∀ k ∈ expected_entity_keys, (kvs'.any fun p => p.1 = k) = true) := by
  constructor
  · intro h
    unfold extract_entities
    rw [h]
  · intro kvs h
    unfold extract_entities
    rw [h]
    obtain ⟨kvs', heq, _, hall⟩ := backfillKeys_obj expected_entity_keys kvs
    exact ⟨kvs', heq, hall⟩

/-- C6 counterexample: `"[]"` parses as JSON (so the `JSONDecodeError`
handler does not fire) but is not an object, and the backfill assignment
`entities['people'] = []` raises an uncaught `TypeError` — the claim's
all-empty substitution does not happen for this malformed structured
output. -/
theorem c6_entity_extraction_counterexample :
    extract_entities "[]" = .error () := rfl

theorem c6_entity_extraction_fallback_witness :
    extract_entities "not json at all" = .ok emptyEntities :=
  (c6_entity_extraction_fallback "not json at all").1 rfl

end PKM

namespace PKM

theorem lookupAttr_setAttr_self (a : Attrs) (k : String) (v : DVal) :
    lookupAttr (setAttr a k v) k = some v := by
  induction a with
  | nil => simp [setAttr, lookupAttr]
  | cons p rest ih =>
    obtain ⟨k', v'⟩ := p
    unfold setAttr
    by_cases h : k' = k
    · rw [if_pos h]
      simp [lookupAttr]
    · rw [if_neg h]
      unfold lookupAttr
      rw [if_neg h]
      exact ih

theorem lookupAttr_setAttr_ne (a : Attrs) (k' k : String) (v : DVal) (h : k' ≠ k) :
    lookupAttr (setAttr a k' v) k = lookupAttr a k := by
  induction a with
  | nil => simp [setAttr, lookupAttr, h]
  | cons p rest ih =>
    obtain ⟨a1, a2⟩ := p
    unfold setAttr
    by_cases h1 : a1 = k'
    · rw [if_pos h1]
      unfold lookupAttr
      rw [if_neg h, if_neg (h1 ▸ h)]
    · rw [if_neg h1]
      unfold lookupAttr
      by_cases h2 : a1 = k
      · rw [if_pos h2, if_pos h2]
      · rw [if_neg h2, if_neg h2]
        exact ih

theorem get_document_metadata_update (t : Table) (p c now : String) :
    get_document_metadata (update_classification t p c now) p
      = some (applySets ((get_document_metadata t p).getD [])
          [("classification", .s c), ("modified", .s now)]) := by
  induction t with
  | nil =>
    unfold update_classification updateItemSet get_document_metadata
    rw [if_pos ⟨rfl, rfl⟩]
    rfl
  | cons x rest ih =>
    unfold update_classification updateItemSet
    by_cases hx : x.pk = "doc#" ++ p ∧ x.sk = "metadata"
    · rw [if_pos hx]
      unfold get_document_metadata
      rw [if_pos hx, if_pos hx]
      rfl
    · rw [if_neg hx]
      unfold get_document_metadata
      rw [if_neg hx, if_neg hx]
      exact ih

theorem mem_updateItemSet_of_ne (t : Table) (pk sk : String) (sets : Attrs)
    (it : Item) (h : it ∈ t) (hne : it.pk ≠ pk ∨ it.sk ≠ sk) :
    it ∈ updateItemSet t pk sk sets := by
  induction t with
  | nil => exact absurd h (List.not_mem_nil it)
  | cons x rest ih =>
    unfold updateItemSet
    by_cases hx : x.pk = pk ∧ x.sk = sk
    · rw [if_pos hx]
      rcases List.mem_cons.mp h with rfl | hm
      · rcases hne with hne | hne
        · exact absurd hx.1 hne
        · exact absurd hx.2 hne
      · exact List.mem_cons_of_mem _ hm
    · rw [if_neg hx]
      rcases List.mem_cons.mp h with rfl | hm
      · exact List.mem_cons_self _ _
      · exact List.mem_cons_of_mem _ (ih hm)

theorem get_document_metadata_putItem_self (t : Table) (p : String) (attrs : Attrs) :
    get_document_metadata (putItem t ⟨"doc#" ++ p, "metadata", attrs⟩) p
      = some attrs := by
  induction t with
  | nil =>
    unfold putItem get_document_metadata
    rw [if_pos ⟨rfl, rfl⟩]
  | cons x rest ih =>
    unfold putItem
    by_cases hx : x.pk = Item.pk ⟨"doc#" ++ p, "metadata", attrs⟩
        ∧ x.sk = Item.sk ⟨"doc#" ++ p, "metadata", attrs⟩
    · rw [if_pos hx]
      unfold get_document_metadata
      rw [if_pos ⟨rfl, rfl⟩]
    · rw [if_neg hx]
      unfold get_document_metadata
      rw [if_neg hx]
      exact ih

theorem classify_persist_get (t : Table) (p : String) (metadata : Attrs)
    (c now : String) :
    get_document_metadata (classify_persist t p metadata c now) p
      = some (setAttr (setAttr metadata "classification" (.s c)) "modified" (.s now)) := by
  unfold classify_persist put_document_metadata
  rw [lookupAttr_setAttr_self]
  exact get_document_metadata_putItem_self t p _

/-- C1 (amended): `DynamoDBClient.update_classification` is a partial
merge — it sets exactly `classification` and `modified` on the document
record and leaves every other attribute and every other item untouched.
However the classification stage's persist step does not call it: the
stage issues a full-replace `put_document_metadata` whose stored record
is exactly the freshly re-parsed metadata plus `classification` and
`modified`, independent of the prior record (so previously stored
attributes such as `entities` are discarded — see the counterexample). -/
theorem c1_update_classification_partial_merge (t : Table) (p c now : String) :
    get_document_metadata (update_classification t p c now) p
      = some (applySets ((get_document_metadata t p).getD [])
          [("classification", .s c), ("modified", .s now)])
    ∧ lookupAttr (applySets ((get_document_metadata t p).getD [])
        [("classification", .s c), ("modified", .s now)]) "classification"
      = some (.s c)
    ∧ lookupAttr (applySets ((get_document_metadata t p).getD [])
        [("classification", .s c), ("modified", .s now)]) "modified"
      = some (.s now)
    ∧ (∀ k, k ≠ "classification" → k ≠ "modified" →
        lookupAttr (applySets ((get_document_metadata t p).getD [])
          [("classification", .s c), ("modified", .s now)]) k
        = lookupAttr ((get_document_metadata t p).getD []) k)
    ∧ (∀ it ∈ t, (it.pk ≠ "doc#" ++ p ∨ it.sk ≠ "metadata") →
        it ∈ update_classification t p c now)
    ∧ (∀ metadata, get_document_metadata (classify_persist t p metadata c now) p
        = some (setAttr (setAttr metadata "classification" (.s c)) "modified" (.s now))) := by
  refine ⟨get_document_metadata_update t p c now, ?_, ?_, ?_, ?_, ?_⟩
  · show lookupAttr (setAttr (setAttr _ "classification" _) "modified" _) "classification"
      = some (.s c)
    rw [lookupAttr_setAttr_ne _ _ _ _ (by decide), lookupAttr_setAttr_self]
  · exact lookupAttr_setAttr_self _ _ _
  · intro k hk1 hk2
    show lookupAttr (setAttr (setAttr _ "classification" _) "modified" _) k = _
    rw [lookupAttr_setAttr_ne _ _ _ _ (Ne.symm hk2),
      lookupAttr_setAttr_ne _ _ _ _ (Ne.symm hk1)]
  · intro it hmem hne
    exact mem_updateItemSet_of_ne t _ _ _ it hmem hne
  · intro metadata
    exact classify_persist_get t p metadata c now

/-- C1 counterexample: a document record holding extracted `entities`
loses them when the classification stage persists — the stage's write is
not a partial merge of only `classification` and `modified`. -/
theorem c1_classify_persist_counterexample :
    lookupAttr ((get_document_metadata c1table "note.md").getD []) "entities"
      = some (.m [("people", .l [.s "Ann"])])
    ∧ lookupAttr ((get_document_metadata
        (classify_persist c1table "note.md" c1parsed "meeting"
          "2026-01-02T00:00:00") "note.md").getD []) "entities"
      = none :=
  ⟨rfl, rfl⟩

theorem c1_update_classification_partial_merge_witness :
    lookupAttr (applySets ((get_document_metadata c1table "note.md").getD [])
        [("classification", DVal.s "meeting"),
         ("modified", DVal.s "2026-01-02T00:00:00")]) "entities"
      = lookupAttr ((get_document_metadata c1table "note.md").getD []) "entities"
    ∧ get_document_metadata (classify_persist c1table "note.md" c1parsed "meeting"
        "2026-01-02T00:00:00") "note.md"
      = some (setAttr (setAttr c1parsed "classification" (DVal.s "meeting"))
          "modified" (DVal.s "2026-01-02T00:00:00")) :=
  ⟨(c1_update_classification_partial_merge c1table "note.md" "meeting"
      "2026-01-02T00:00:00").2.2.2.1 "entities" (by decide) (by decide),
   (c1_update_classification_partial_merge c1table "note.md" "meeting"
      "2026-01-02T00:00:00").2.2.2.2.2 c1parsed⟩

end PKM

namespace PKM

theorem mem_putItem_self (t : Table) (it : Item) : it ∈ putItem t it := by
  induction t with
  | nil => exact List.mem_singleton_self it
  | cons x rest ih =>
    unfold putItem
    by_cases hx : x.pk = it.pk ∧ x.sk = it.sk
    · rw [if_pos hx]
      exact List.mem_cons_self _ _
    · rw [if_neg hx]
      exact List.mem_cons_of_mem _ ih

theorem mem_putItem_of_ne (t : Table) (it x : Item) (h : x ∈ t)
    (hne : x.pk ≠ it.pk ∨ x.sk ≠ it.sk) : x ∈ putItem t it := by
  induction t with
  | nil => exact absurd h (List.not_mem_nil x)
  | cons y rest ih =>
    unfold putItem
    by_cases hy : y.pk = it.pk ∧ y.sk = it.sk
    · rw [if_pos hy]
      rcases List.mem_cons.mp h with rfl | hm
      · rcases hne with hne | hne
        · exact absurd hy.1 hne
        · exact absurd hy.2 hne
      · exact List.mem_cons_of_mem _ hm
    · rw [if_neg hy]
      rcases List.mem_cons.mp h with rfl | hm
      · exact List.mem_cons_self _ _
      · exact List.mem_cons_of_mem _ (ih hm)

theorem mem_get_entity_mentions (t : Table) (ty nm : String) (it : Item)
    (hmem : it ∈ t)
    (hkey : lookupAttr it.attrs "entity_key"
      = some (.s ("entity#" ++ ty ++ "#" ++ pyLower nm))) :
    pyReplace it.sk "doc#" "" ∈ get_entity_mentions t ty nm := by
  unfold get_entity_mentions
  refine List.mem_map.mpr ⟨it, ?_, rfl⟩
  refine List.mem_filter.mpr ⟨hmem, ?_⟩
  simp [hkey]

theorem entity_key_ne_doc_key (ty nm x : String) :
    "entity#" ++ ty ++ "#" ++ nm ≠ "doc#" ++ x := by
  intro h
  have h2 := congrArg (fun s => s.data.head?) h
  injection h2 with h3
  exact absurd h3 (by decide)

theorem string_append_left_cancel (pre a b : String) (h : pre ++ a = pre ++ b) :
    a = b := by
  have h2 : pre.data ++ a.data = pre.data ++ b.data := congrArg String.data h
  have h3 := List.append_cancel_left h2
  cases a
  cases b
  exact congrArg String.mk h3

/-- C9: entity canonical keys are case-insensitive — storing mentions of
two names that agree up to letter case (equal `lower()`) under the same
type, for two different documents, yields one shared mention list:
querying under either name returns the same list, containing both
documents' stripped paths. -/
theorem c9_entity_key_case_insensitive (t : Table)
    (ty n1 n2 p1 p2 now1 now2 : String)
    (hlow : pyLower n1 = pyLower n2) (hne : p1 ≠ p2) :
    get_entity_mentions
        (store_entities (store_entities t p1 [(ty, [n1])] now1) p2 [(ty, [n2])] now2)
        ty n1
      = get_entity_mentions
        (store_entities (store_entities t p1 [(ty, [n1])] now1) p2 [(ty, [n2])] now2)
        ty n2
    ∧ pyReplace ("doc#" ++ p1) "doc#" ""
        ∈ get_entity_mentions
          (store_entities (store_entities t p1 [(ty, [n1])] now1) p2 [(ty, [n2])] now2)
          ty n1
    ∧ pyReplace ("doc#" ++ p2) "doc#" ""
        ∈ get_entity_mentions
          (store_entities (store_entities t p1 [(ty, [n1])] now1) p2 [(ty, [n2])] now2)
          ty n1 := by
  have heq : get_entity_mentions
      (store_entities (store_entities t p1 [(ty, [n1])] now1) p2 [(ty, [n2])] now2) ty n1
    = get_entity_mentions
      (store_entities (store_entities t p1 [(ty, [n1])] now1) p2 [(ty, [n2])] now2) ty n2 := by
    unfold get_entity_mentions
    rw [hlow]
  refine ⟨heq, ?_, ?_⟩
  · refine mem_get_entity_mentions _ ty n1
      ⟨"entity#" ++ ty ++ "#" ++ pyLower n1, "doc#" ++ p1,
        [("entity_key", .s ("entity#" ++ ty ++ "#" ++ pyLower n1)),
         ("entity_type", .s ty), ("entity_name", .s n1),
         ("document_path", .s p1), ("modified", .s now1)]⟩ ?_ ?_
    · show _ ∈ putItem (updateItemSet (putItem (updateItemSet t ("doc#" ++ p1)
        "metadata" [("entities", entitiesVal [(ty, [n1])]), ("modified", .s now1)]) _)
        ("doc#" ++ p2) "metadata"
        [("entities", entitiesVal [(ty, [n2])]), ("modified", .s now2)]) _
      apply mem_putItem_of_ne
      · apply mem_updateItemSet_of_ne
        · exact mem_putItem_self _ _
        · exact Or.inl (entity_key_ne_doc_key ty (pyLower n1) p2)
      · refine Or.inr ?_
        intro h
        exact hne (string_append_left_cancel "doc#" p1 p2 h)
    · rfl
  · rw [heq]
    refine mem_get_entity_mentions _ ty n2
      ⟨"entity#" ++ ty ++ "#" ++ pyLower n2, "doc#" ++ p2,
        [("entity_key", .s ("entity#" ++ ty ++ "#" ++ pyLower n2)),
         ("entity_type", .s ty), ("entity_name", .s n2),
         ("document_path", .s p2), ("modified", .s now2)]⟩ ?_ ?_
    · exact mem_putItem_self _ _
    · rfl

theorem c9_entity_key_case_insensitive_witness :
    get_entity_mentions
        (store_entities (store_entities [] "a.md" [("organizations", ["Acme Corp"])]
          "2026-01-01T00:00:00") "b.md" [("organizations", ["acme corp"])]
          "2026-01-02T00:00:00") "organizations" "Acme Corp"
      = get_entity_mentions
        (store_entities (store_entities [] "a.md" [("organizations", ["Acme Corp"])]
          "2026-01-01T00:00:00") "b.md" [("organizations", ["acme corp"])]
          "2026-01-02T00:00:00") "organizations" "acme corp"
    ∧ pyReplace ("doc#" ++ "a.md") "doc#" ""
        ∈ get_entity_mentions
          (store_entities (store_entities [] "a.md" [("organizations", ["Acme Corp"])]
            "2026-01-01T00:00:00") "b.md" [("organizations", ["acme corp"])]
            "2026-01-02T00:00:00") "organizations" "Acme Corp"
    ∧ pyReplace ("doc#" ++ "b.md") "doc#" ""
        ∈ get_entity_mentions
          (store_entities (store_entities [] "a.md" [("organizations", ["Acme Corp"])]
            "2026-01-01T00:00:00") "b.md" [("organizations", ["acme corp"])]
            "2026-01-02T00:00:00") "organizations" "Acme Corp" :=
  c9_entity_key_case_insensitive [] "organizations" "Acme Corp" "acme corp"
    "a.md" "b.md" "2026-01-01T00:00:00" "2026-01-02T00:00:00" rfl (by decide)

end PKM

namespace PKM

theorem dailySelect_fn_shape (getObject : String → Option String) (r : DocRec)
    (d : SelDoc)
    (h : (fun (d : DocRec) =>
        let path := pyReplace d.pk "doc#" ""
        if pyStartsWith path "_agent/" then none
        else
          match getObject path with
          | none => none
          | some content =>
            if content = "" then none
            else some (⟨path, pySliceTo content 2000, d.title.getD "Untitled"⟩ : SelDoc)) r
      = some d) :
    d.path = pyReplace r.pk "doc#" "" ∧ pyStartsWith d.path "_agent/" = false := by
  simp only at h
  by_cases hag : pyStartsWith (pyReplace r.pk "doc#" "") "_agent/" = true
  · rw [if_pos hag] at h
    exact Option.noConfusion h
  · rw [if_neg hag] at h
    cases hgo : getObject (pyReplace r.pk "doc#" "") with
    | none =>
      simp only [hgo] at h
      exact Option.noConfusion h
    | some content =>
      simp only [hgo] at h
      by_cases hc : content = ""
      · rw [if_pos hc] at h
        exact Option.noConfusion h
      · rw [if_neg hc] at h
        injection h with h
        exact ⟨by rw [← h], by rw [← h]; exact Bool.eq_false_iff.mpr hag⟩

/-- C4 (amended): the daily candidate set is filtered to the exact day
window, then truncated to the first 20, and only inside that truncated
sample are reserved `_agent/` paths (and unfetchable or empty documents)
dropped.  Hence the sample never exceeds 20 documents, never contains a
reserved-prefix path, and every sampled document comes from an in-window
record — but the sample may hold fewer than 20 documents even when at
least 20 non-reserved documents fall in the window (see the
counterexample). -/
theorem c4_daily_selection_properties (recent : List DocRec)
    (sinceIso untilIso : String) (getObject : String → Option String) :
    (dailySelectDocs (dailyDayDocs recent sinceIso untilIso) getObject).length ≤ 20
    ∧ (∀ d ∈ dailySelectDocs (dailyDayDocs recent sinceIso untilIso) getObject,
        pyStartsWith d.path "_agent/" = false)
    ∧ (∀ d ∈ dailySelectDocs (dailyDayDocs recent sinceIso untilIso) getObject,
        ∃ r ∈ recent, pyStrLe sinceIso (r.modified.getD "") = true
          ∧ pyStrLt (r.modified.getD "") untilIso = true
          ∧ d.path = pyReplace r.pk "doc#" "") := by
  refine ⟨?_, ?_, ?_⟩
  · unfold dailySelectDocs
    exact le_trans (List.length_filterMap_le _ _) (List.length_take_le _ _)
  · intro d hd
    unfold dailySelectDocs at hd
    rw [List.mem_filterMap] at hd
    obtain ⟨r, _, hfr⟩ := hd
    exact (dailySelect_fn_shape getObject r d hfr).2
  · intro d hd
    unfold dailySelectDocs at hd
    rw [List.mem_filterMap] at hd
    obtain ⟨r, hr, hfr⟩ := hd
    have hr' : r ∈ dailyDayDocs recent sinceIso untilIso := List.mem_of_mem_take hr
    unfold dailyDayDocs at hr'
    obtain ⟨hrin, hpred⟩ := List.mem_filter.mp hr'
    obtain ⟨h1, h2⟩ := Bool.and_eq_true _ _ |>.mp hpred
    exact ⟨r, hrin, h1, h2, (dailySelect_fn_shape getObject r d hfr).1⟩

/-- C4 counterexample: for the state `c4recent` (21 in-window records, of
which 20 are non-reserved, with the reserved one first in scan order) the
sample holds 19 documents, not the 20 the claim requires — the truncation
to 20 happens before the reserved-prefix exclusion. -/
theorem c4_truncation_counterexample :
    ((dailyDayDocs c4recent "2026-01-10T00:00:00" "2026-01-11T00:00:00").filter
        (fun d => !(pyStartsWith (pyReplace d.pk "doc#" "") "_agent/"))).length = 20
    ∧ (dailySelectDocs (dailyDayDocs c4recent "2026-01-10T00:00:00" "2026-01-11T00:00:00")
        (fun _ => some "text")).length = 19 := by
  decide

theorem c4_daily_selection_properties_witness :
    (dailySelectDocs (dailyDayDocs c4recent "2026-01-10T00:00:00" "2026-01-11T00:00:00")
        (fun _ => some "text")).length ≤ 20
    ∧ pyStartsWith (SelDoc.mk "note0.md" (pySliceTo "text" 2000) "Note").path
        "_agent/" = false :=
  ⟨(c4_daily_selection_properties c4recent "2026-01-10T00:00:00" "2026-01-11T00:00:00"
      (fun _ => some "text")).1,
   (c4_daily_selection_properties c4recent "2026-01-10T00:00:00" "2026-01-11T00:00:00"
      (fun _ => some "text")).2.1 (SelDoc.mk "note0.md" (pySliceTo "text" 2000) "Note")
      (by decide)⟩

end PKM

namespace PKM

/-- C7: when the leading frontmatter block is present but fails to parse
(`yaml.safe_load` raises), the extractor treats frontmatter as absent:
no frontmatter is returned, `has_frontmatter` is `false`, and every
subsequent extraction step (title, tags, wikilinks) runs over the entire
original input text. -/
theorem c7_frontmatter_parse_failure (yamlLoad : YamlLoad)
    (content fmStr body : String)
    (hm : fmMatch content = some (fmStr, body))
    (he : yamlLoad fmStr = .error ()) :
    extract_frontmatter yamlLoad content = (none, content)
    ∧ parse_markdown_metadata yamlLoad content
      = .ok ⟨h1OrUntitled content, dedupKeepFirst (findHashtags content),
          extract_wikilinks content, false, none, none, none, []⟩ := by
  have hef : extract_frontmatter yamlLoad content = (none, content) := by
    unfold extract_frontmatter
    simp only [hm, he]
  refine ⟨hef, ?_⟩
  unfold parse_markdown_metadata
  rw [hef]
  exact rfl

/-- C10: frontmatter delimiters present with a block that loads as
`None` (e.g. an empty block): the frontmatter is normalized to the empty
mapping — so `has_frontmatter` is `true` — while contributing no title,
tag, or passthrough fields; all extracted values come from the body. -/
theorem c10_null_frontmatter_normalized (yamlLoad : YamlLoad)
    (content fmStr body : String)
    (hm : fmMatch content = some (fmStr, body))
    (hn : yamlLoad fmStr = .ok .null) :
    extract_frontmatter yamlLoad content = (some (.map []), body)
    ∧ parse_markdown_metadata yamlLoad content
      = .ok ⟨h1OrUntitled body, dedupKeepFirst (findHashtags body),
          extract_wikilinks body, true, none, none, none, []⟩ := by
  have hef : extract_frontmatter yamlLoad content = (some (.map []), body) := by
    unfold extract_frontmatter
    simp only [hm, hn]
    rfl
  refine ⟨hef, ?_⟩
  unfold parse_markdown_metadata
  rw [hef]
  exact rfl

theorem c7_frontmatter_parse_failure_witness :
    extract_frontmatter (fun _ => Except.error ()) "---\ntags: [a\n---\nBody #x"
      = (none, "---\ntags: [a\n---\nBody #x")
    ∧ parse_markdown_metadata (fun _ => Except.error ()) "---\ntags: [a\n---\nBody #x"
      = .ok ⟨h1OrUntitled "---\ntags: [a\n---\nBody #x",
          dedupKeepFirst (findHashtags "---\ntags: [a\n---\nBody #x"),
          extract_wikilinks "---\ntags: [a\n---\nBody #x", false, none, none, none, []⟩ :=
  c7_frontmatter_parse_failure (fun _ => Except.error ()) "---\ntags: [a\n---\nBody #x"
    "tags: [a" "Body #x" rfl rfl

theorem c10_null_frontmatter_normalized_witness :
    extract_frontmatter (fun s => if s = "" then Except.ok YamlValue.null else Except.error ())
        "---\n\n---\nbody #t [[w]]"
      = (some (.map []), "body #t [[w]]")
    ∧ parse_markdown_metadata
        (fun s => if s = "" then Except.ok YamlValue.null else Except.error ())
        "---\n\n---\nbody #t [[w]]"
      = .ok ⟨h1OrUntitled "body #t [[w]]", dedupKeepFirst (findHashtags "body #t [[w]]"),
          extract_wikilinks "body #t [[w]]", true, none, none, none, []⟩ :=
  c10_null_frontmatter_normalized
    (fun s => if s = "" then Except.ok YamlValue.null else Except.error ())
    "---\n\n---\nbody #t [[w]]" "" "body #t [[w]]" rfl rfl

end PKM
